import Mathlib

/-!
k8s-manager: a shallow embedding of `main.go`.

The command handlers of `main.go` are embedded as pure functions.  A Go
`string` is a Lean `String`; Go `int`/`int32`/`int64` values are `Int`,
with the wrap-around written out where the source can overflow.  The
cluster API is a record of functions (`Cluster`), the wall clock is a
parameter, and a handler returns what it wrote to standard output and to
the error stream, the cluster calls it made, and whether it ran into a
run-time panic.
-/

namespace K8sManager

/-! ## Go string and formatting primitives -/

/-- Go `len(s)` of a string: its length in bytes. -/
def goLen (s : String) : Nat := s.utf8ByteSize

/-- Go `s[:n]`: the bytes of `s` before byte offset `n`. -/
def goSliceTo (s : String) (n : Nat) : String := s.extract 0 ⟨n⟩

/-- The `%d` verb of package `fmt` on an integer: sign and decimal digits. -/
def fmtD (n : Int) : String := toString n

/-- The `%-Ns` verb: the text, padded on the right with blanks up to `w`
characters. -/
def padRight (w : Nat) (s : String) : String :=
  s ++ String.mk (List.replicate (w - s.length) ' ')

/-! ## Data model (the fields `main.go` reads) -/

/-- The type `corev1.ServicePort`. -/
structure ServicePort where
  port : Int
  protocol : String
  deriving DecidableEq, Repr

/-- The type `corev1.ContainerStatus`. -/
structure ContainerStatus where
  name : String
  ready : Bool
  deriving DecidableEq, Repr

/-- The type `corev1.Container`. -/
structure Container where
  name : String
  deriving DecidableEq, Repr

/-- The type `corev1.Pod`: creation time in nanoseconds, spec containers, phase and
container statuses. -/
structure Pod where
  name : String
  creationTimestamp : Int
  containers : List Container
  phase : String
  containerStatuses : List ContainerStatus
  deriving DecidableEq, Repr

/-- The type `corev1.NodeCondition`; `condType` is its `Type` field. -/
structure NodeCondition where
  condType : String
  deriving DecidableEq, Repr

/-- The type `corev1.Node`.  `labels` lists the entries of the label map in the order
the `range` statement visits them. -/
structure Node where
  name : String
  creationTimestamp : Int
  labels : List (String × String)
  conditions : List NodeCondition
  deriving DecidableEq, Repr

/-- The type `appsv1.Deployment`; `specReplicas` is the pointer field `Spec.Replicas`. -/
structure Deployment where
  name : String
  creationTimestamp : Int
  specReplicas : Option Int
  replicas : Int
  readyReplicas : Int
  updatedReplicas : Int
  availableReplicas : Int
  deriving DecidableEq, Repr

/-- The type `corev1.Service`. -/
structure Service where
  name : String
  svcType : String
  clusterIP : String
  ports : List ServicePort
  deriving DecidableEq, Repr

/-- The type `corev1.Namespace`. -/
structure Namespace where
  name : String
  phase : String
  deriving DecidableEq, Repr

/-! ## The environment of a handler -/

/-- The cluster API as seen through `clientset`: each call either fails with
the text of its error or returns the object.  A failed call is
`Except.error`. -/
structure Cluster where
  listNodes : Except String (List Node)
  listPods : String → Except String (List Pod)
  listDeployments : String → Except String (List Deployment)
  getDeployment : String → String → Except String Deployment
  updateDeployment : String → Deployment → Except String Deployment
  listServices : String → Except String (List Service)
  listNamespaces : Except String (List Namespace)
  getPodLogs : String → String → Int → Except String String

/-- What the handlers take from package `time`: `clock i` is the instant
(nanoseconds) that the `i`-th evaluation of `time.Since` in a loop reads, and
`durationString` is `Duration.String`, which `%v` prints. -/
structure Env where
  clock : Nat → Int
  durationString : Int → String

/-- A request sent to the cluster, with its arguments. -/
inductive ApiCall where
  | listNodes
  | listPods (ns : String)
  | listDeployments (ns : String)
  | getDeployment (ns name : String)
  | updateDeployment (ns : String) (d : Deployment)
  | listServices (ns : String)
  | listNamespaces
  | getPodLogs (ns name : String) (tailLines : Int)
  deriving DecidableEq, Repr

/-- The namespace a request addresses, when it has one. -/
def ApiCall.namespace : ApiCall → Option String
  | .listNodes => none
  | .listPods ns => some ns
  | .listDeployments ns => some ns
  | .getDeployment ns _ => some ns
  | .updateDeployment ns _ => some ns
  | .listServices ns => some ns
  | .listNamespaces => none
  | .getPodLogs ns _ _ => some ns

/-- The observable effect of one handler run: the texts written to standard
output and to the error stream (one entry per print call, in order), the
cluster calls made, and whether the run ended in a run-time panic. -/
structure Output where
  stdout : List String
  stderr : List String
  calls : List ApiCall
  panicked : Bool
  deriving DecidableEq, Repr

/-- Go `xs[i]` with a signed index: `none` stands for the run-time panic
"index out of range". -/
def goIndex {α : Type} (xs : List α) (i : Int) : Option α :=
  if 0 ≤ i ∧ i < (xs.length : Int) then xs.get? i.toNat else none

/-! ## Package `time`: `Time.Sub` and `Duration.Round` -/

/-- The smallest `Duration`, `-1 << 63`. -/
def minDuration : Int := -9223372036854775808

/-- The largest `Duration`, `1<<63 - 1`. -/
def maxDuration : Int := 9223372036854775807

/-- The constant `time.Hour` in nanoseconds. -/
def hour : Int := 3600000000000

/-- The wrap-around of `int64` arithmetic: the value modulo 2^64 in the signed
range. -/
def wrap64 (x : Int) : Int := (x + 9223372036854775808) % 18446744073709551616 - 9223372036854775808

/-- The conversion `uint64(x)`. -/
def toUint64 (x : Int) : Int := x % 18446744073709551616

/-- The method `Time.Sub` on two wall-clock instants given in nanoseconds: the
difference computed in `int64`, kept when adding it back to `u` gives `t`, and
otherwise replaced by the smallest or largest duration. -/
def timeSub (t u : Int) : Int :=
  let d := wrap64 (t - u)
  if u + d = t then d
  else if t < u then minDuration
  else maxDuration

/-- The helper `lessThanHalf` of package `time`:
`uint64(x)+uint64(x) < uint64(y)`. -/
def lessThanHalf (x y : Int) : Bool :=
  decide (toUint64 (toUint64 x + toUint64 x) < toUint64 y)

/-- The method `Duration.Round`: round `d` to the nearest multiple of `m`, halves away
from zero, the extreme durations standing in for an overflowing result. -/
def durationRound (d m : Int) : Int :=
  if m ≤ 0 then d
  else
    let r := Int.tmod d m
    if d < 0 then
      let r := wrap64 (-r)
      if lessThanHalf r m then wrap64 (d + r)
      else
        let d1 := wrap64 (wrap64 (d - m) + r)
        if d1 < d then d1 else minDuration
    else
      if lessThanHalf r m then wrap64 (d - r)
      else
        let d1 := wrap64 (wrap64 (d + m) - r)
        if d1 > d then d1 else maxDuration

/-- The age of lines 62, 101 and 142:
`time.Since(creationTimestamp).Round(time.Hour)`, with `now` the instant that
`time.Since` reads. -/
def age (now creation : Int) : Int := durationRound (timeSub now creation) hour

/-! ## Formatters -/

/-- The inner loop of `svcCmd.Run` (lines 226-232): append `"<port>/<protocol>,"`
for each port, then cut the last byte when the text is not empty. -/
def portSummary (ps : List ServicePort) : String :=
  let ports := ps.foldl (fun acc p => acc ++ (fmtD p.port ++ "/" ++ p.protocol ++ ",")) ""
  if goLen ports > 0 then goSliceTo ports (goLen ports - 1) else ports

/-- The entry `"<port>/<protocol>"` of one service port. -/
def portEntry (p : ServicePort) : String := fmtD p.port ++ "/" ++ p.protocol

/-- The function `getReadyContainers` (lines 113-121): count the statuses whose ready flag
is set. -/
def getReadyContainers (pod : Pod) : Int :=
  pod.containerStatuses.foldl (fun ready cs => if cs.ready then ready + 1 else ready) 0

/-- The READY cell of `podsCmd.Run` (line 102):
`fmt.Sprintf("%d/%d", getReadyContainers(&pod), len(pod.Spec.Containers))`. -/
def podReady (pod : Pod) : String :=
  fmtD (getReadyContainers pod) ++ "/" ++ fmtD (pod.containers.length : Int)

/-- The role loop of `nodesCmd.Run` (lines 63-71).  The label map is given as
the sequence of its entries in the order the `range` statement visits them;
Go leaves that order unspecified, so every order is a possible input. -/
def nodeRoles (labels : List (String × String)) : String :=
  let roles := labels.foldl
    (fun roles kv =>
      if kv.2 = "master" ∨ kv.2 = "control-plane" then roles ++ (kv.1 ++ ",") else roles) ""
  if roles = "" then "worker" else roles

/-- Whether a label value marks a control-plane role. -/
def isRoleValue (v : String) : Bool := v = "master" || v = "control-plane"

/-! ## Argument validation (package `cobra`) -/

/-- The validator `cobra.MinimumNArgs(n)`: an error when there are fewer than `n`
positional arguments. -/
def MinimumNArgs (n : Nat) (args : List String) : Except String Unit :=
  if args.length < n then
    .error ("requires at least " ++ toString n ++ " arg(s), only received " ++
      toString args.length)
  else .ok ()

/-- The validator `cobra.MaximumNArgs(n)`: an error when there are more than `n` positional
arguments. -/
def MaximumNArgs (n : Nat) (args : List String) : Except String Unit :=
  if args.length > n then
    .error ("accepts at most " ++ toString n ++ " arg(s), received " ++ toString args.length)
  else .ok ()

/-- The validator `cobra.RangeArgs(min, max)`: an error when the number of positional
arguments is outside `min..max`. -/
def RangeArgs (min max : Nat) (args : List String) : Except String Unit :=
  if args.length < min ∨ args.length > max then
    .error ("accepts between " ++ toString min ++ " and " ++ toString max ++
      " arg(s), received " ++ toString args.length)
  else .ok ()

/-- The `Args` field of `podsCmd` (line 85). -/
def podsArgs : List String → Except String Unit := MaximumNArgs 1

/-- The `Args` field of `deployCmd` (line 126). -/
def deployArgs : List String → Except String Unit := MaximumNArgs 1

/-- The `Args` field of `scaleCmd` (line 158). -/
def scaleArgs : List String → Except String Unit := MinimumNArgs 2

/-- The `Args` field of `logsCmd` (line 188). -/
def logsArgs : List String → Except String Unit := RangeArgs 1 2

/-- The `Args` field of `svcCmd` (line 210). -/
def svcArgs : List String → Except String Unit := MaximumNArgs 1

/-- Whether a validator lets the argument list through. -/
def accepts (v : List String → Except String Unit) (args : List String) : Bool :=
  match v args with
  | .ok _ => true
  | .error _ => false

/-! ## Packages `fmt` and `strconv`: `fmt.Sscanf(s, "%d", &replicas)` -/

/-- The ways `fmt.Sscanf(s, "%d", &replicas)` fails.  `main.go` drops the
error, so only the fact of a failure matters. -/
inductive ScanError where
  | unexpectedNewline
  | eof
  | expectedInteger
  | invalidSyntax
  | outOfRange
  | integerOverflow
  deriving DecidableEq, Repr

/-- The table `space` of `fmt/scan.go`. -/
def spaceRanges : List (Nat × Nat) :=
  [(0x0009, 0x000d), (0x0020, 0x0020), (0x0085, 0x0085), (0x00a0, 0x00a0), (0x1680, 0x1680),
   (0x2000, 0x200a), (0x2028, 0x2029), (0x202f, 0x202f), (0x205f, 0x205f), (0x3000, 0x3000)]

/-- The range scan of `isSpace`. -/
def inSpaceRanges (rx : Nat) : List (Nat × Nat) → Bool
  | [] => false
  | (lo, hi) :: more =>
    if rx < lo then false
    else if rx ≤ hi then true
    else inSpaceRanges rx more

/-- The function `isSpace` of `fmt/scan.go`. -/
def isSpace (r : Char) : Bool :=
  if r.toNat ≥ 65536 then false else inSpaceRanges r.toNat spaceRanges

/-- Whether the rune is in `"+-"`, the string `sign` of `fmt/scan.go`. -/
def isSign (r : Char) : Bool := r = '+' || r = '-'

/-- Whether the character is a decimal digit: the test `'0' <= c && c <= '9'`
of `strconv.ParseUint`, and membership in `"0123456789"`, the digit set
`decimalDigits` that `getBase` gives the verb `%d`. -/
def isDecDigit (c : Char) : Bool := decide (48 ≤ c.toNat) && decide (c.toNat ≤ 57)

/-- The method `(*ss).SkipSpace` with `nlIsSpace` unset, as `Sscanf` runs it: skip white
space, fail on a newline. -/
def skipSpace : List Char → Except ScanError (List Char)
  | [] => .ok []
  | r :: more =>
    if r = '\r' ∧ more.head? = some '\n' then skipSpace more
    else if r = '\n' then .error .unexpectedNewline
    else if !isSpace r then .ok (r :: more)
    else skipSpace more

/-- The loop `for s.accept(digits) {}` of `scanNumber` with the digit set of
`%d`: the longest run of decimal digits, and what follows it. -/
def acceptDigits : List Char → List Char × List Char
  | [] => ([], [])
  | r :: more =>
    if isDecDigit r then ((acceptDigits more).1.cons r, (acceptDigits more).2)
    else ([], r :: more)

/-- The loop of `strconv.ParseUint(s, 10, 64)` over the bytes of `s`, with `n`
the value so far: a byte that is not a decimal digit is a syntax error, a value
beyond `uint64` a range error. -/
def parseUintLoop : List Char → Nat → Except ScanError Nat
  | [], n => .ok n
  | c :: cs, n =>
    if isDecDigit c then
      let d := c.toNat - 48
      if n ≥ 1844674407370955162 then .error .outOfRange
      else
        let n10 := n * 10
        let n1 := (n10 + d) % 18446744073709551616
        if n1 < n10 ∨ n1 > 18446744073709551615 then .error .outOfRange
        else parseUintLoop cs n1
    else .error .invalidSyntax

/-- The function `strconv.ParseUint(s, 10, 64)`. -/
def parseUint (s : List Char) : Except ScanError Nat :=
  if s = [] then .error .invalidSyntax else parseUintLoop s 0

/-- The function `strconv.ParseInt(s, 10, 64)`: pick off the sign, convert the rest
unsigned, and check the `int64` range. -/
def parseInt (s : List Char) : Except ScanError Int :=
  match s with
  | [] => .error .invalidSyntax
  | c :: cs =>
    let neg := decide (c = '-')
    let body := if c = '+' ∨ c = '-' then cs else c :: cs
    match parseUint body with
    | .error e => .error e
    | .ok un =>
      if !neg ∧ un ≥ 9223372036854775808 then .error .outOfRange
      else if neg ∧ un > 9223372036854775808 then .error .outOfRange
      else .ok (if neg then -(un : Int) else (un : Int))

/-- The method `(*ss).scanInt('d', 32)` together with the `SkipSpace` that `doScanf` runs
before it: skip white space, take an optional sign and the run of digits,
convert it with `ParseInt`, and check that the value fits 32 bits
(`(i << 32) >> 32 == i`).  What follows the digit run is left unread.  The
limit of `1 << 30` runes that `Sscanf` puts on one operand is left out: a
command-line argument is shorter. -/
def scanInt32 (input : List Char) : Except ScanError Int :=
  match skipSpace input with
  | .error e => .error e
  | .ok s1 =>
    match skipSpace s1 with
    | .error e => .error e
    | .ok s2 =>
      match s2 with
      | [] => .error .eof
      | r :: more =>
        let signTok := if isSign r then [r] else []
        let s3 := if isSign r then more else r :: more
        match s3 with
        | [] => .error .eof
        | r3 :: more3 =>
          if !isDecDigit r3 then .error .expectedInteger
          else
            let tok := signTok ++ (acceptDigits (r3 :: more3)).1
            match parseInt tok with
            | .error e => .error e
            | .ok i =>
              let x := (i + 2147483648) % 4294967296 - 2147483648
              if x ≠ i then .error .integerOverflow
              else .ok i

/-- The call `fmt.Sscanf(s, "%d", &replicas)` on an `int32`: the scanned value, or the
error the call returns. -/
def sscanfInt32 (s : String) : Except ScanError Int := scanInt32 s.data

/-- Lines 161-162: `replicas := int32(0); fmt.Sscanf(args[1], "%d", &replicas)`.
The result of `Sscanf` is dropped; `replicas` is assigned only when the scan
succeeds. -/
def scaleReplicas (arg : String) : Int :=
  match sscanfInt32 arg with
  | .ok v => v
  | .error _ => 0

/-- The value of a run of decimal digits read after the value `acc`. -/
def decVal (acc : Nat) (ds : List Char) : Nat :=
  ds.foldl (fun a c => a * 10 + (c.toNat - 48)) acc

/-! ## Command handlers -/

/-- The separator line every table prints under its header. -/
def separatorLine : String :=
  "----------------------------------------------------------------\n"

/-- The header line of the `nodes` table (line 59). -/
def nodesHeader : String :=
  padRight 20 "NAME" ++ " " ++ padRight 15 "STATUS" ++ " " ++ padRight 20 "ROLES" ++ " " ++
    padRight 15 "AGE" ++ "\n"

/-- The header line of the `pods` table (line 98). -/
def podsHeader : String :=
  padRight 30 "NAME" ++ " " ++ padRight 15 "READY" ++ " " ++ padRight 10 "STATUS" ++ " " ++
    padRight 15 "AGE" ++ "\n"

/-- The header line of the `deploy` table (line 139). -/
def deployHeader : String :=
  padRight 25 "NAME" ++ " " ++ padRight 10 "READY" ++ " " ++ padRight 15 "UP-TO-DATE" ++ " " ++
    padRight 15 "AVAILABLE" ++ " " ++ padRight 15 "AGE" ++ "\n"

/-- The header line of the `svc` table (line 223). -/
def svcHeader : String :=
  padRight 25 "NAME" ++ " " ++ padRight 20 "TYPE" ++ " " ++ padRight 15 "CLUSTER-IP" ++ " " ++
    padRight 15 "PORT(S)" ++ "\n"

/-- The header line of the `ns` table (line 253). -/
def nsHeader : String :=
  padRight 20 "NAME" ++ " " ++ padRight 15 "STATUS" ++ "\n"

/-- The result of a handler that has printed nothing yet. -/
def noOutput (calls : List ApiCall) : Output :=
  { stdout := [], stderr := [], calls := calls, panicked := false }

/-- One row of `nodesCmd.Run` (lines 62-77), read at instant `now`; `none` is
the panic of `node.Status.Conditions[len(node.Status.Conditions)-1]`. -/
def nodeRow (env : Env) (now : Int) (node : Node) : Option String :=
  let a := age now node.creationTimestamp
  let roles := nodeRoles node.labels
  match goIndex node.conditions ((node.conditions.length : Int) - 1) with
  | none => none
  | some cond =>
    some (padRight 20 node.name ++ " " ++ padRight 15 cond.condType ++ " " ++
      padRight 20 roles ++ " " ++ padRight 15 (env.durationString a) ++ "\n")

/-- The loop of `nodesCmd.Run` (lines 61-78) from the `i`-th item on. -/
def nodesLoop (env : Env) : List Node → Nat → Output → Output
  | [], _, out => out
  | node :: more, i, out =>
    match nodeRow env (env.clock i) node with
    | none => { out with panicked := true }
    | some row => nodesLoop env more (i + 1) { out with stdout := out.stdout ++ [row] }

/-- The handler `nodesCmd.Run` (lines 52-79). -/
def nodesRun (env : Env) (cl : Cluster) (_args : List String) : Output :=
  match cl.listNodes with
  | .error err =>
    { noOutput [.listNodes] with stderr := ["Failed to get nodes: " ++ err ++ "\n"] }
  | .ok items =>
    nodesLoop env items 0
      { noOutput [.listNodes] with
        stdout := [nodesHeader, separatorLine] }

/-- One row of `podsCmd.Run` (lines 101-108). -/
def podRow (env : Env) (now : Int) (pod : Pod) : String :=
  let a := age now pod.creationTimestamp
  let ready := podReady pod
  padRight 30 pod.name ++ " " ++ padRight 15 ready ++ " " ++ padRight 10 pod.phase ++ " " ++
    padRight 15 (env.durationString a) ++ "\n"

/-- The rows a table loop prints: the `i`-th item is rendered at the instant
`clock i`. -/
def tableRows {α : Type} (env : Env) (row : Env → Int → α → String) :
    List α → Nat → List String
  | [], _ => []
  | x :: more, i => row env (env.clock i) x :: tableRows env row more (i + 1)

/-- The handler `podsCmd.Run` (lines 86-110). -/
def podsRun (env : Env) (cl : Cluster) (args : List String) : Output :=
  let ns := if args.length > 0 then args.getD 0 "" else "default"
  match cl.listPods ns with
  | .error err =>
    { noOutput [.listPods ns] with stderr := ["Failed to get pods: " ++ err ++ "\n"] }
  | .ok items =>
    { noOutput [.listPods ns] with
      stdout := [podsHeader, separatorLine] ++
        tableRows env podRow items 0 }

/-- One row of `deployCmd.Run` (lines 142-150). -/
def deployRow (env : Env) (now : Int) (d : Deployment) : String :=
  let a := age now d.creationTimestamp
  let ready := fmtD d.readyReplicas ++ "/" ++ fmtD d.replicas
  padRight 25 d.name ++ " " ++ padRight 10 ready ++ " " ++
    padRight 15 (fmtD d.updatedReplicas) ++ " " ++
    padRight 15 (fmtD d.availableReplicas) ++ " " ++
    padRight 15 (env.durationString a) ++ "\n"

/-- The handler `deployCmd.Run` (lines 127-152). -/
def deployRun (env : Env) (cl : Cluster) (args : List String) : Output :=
  let ns := if args.length > 0 then args.getD 0 "" else "default"
  match cl.listDeployments ns with
  | .error err =>
    { noOutput [.listDeployments ns] with
      stderr := ["Failed to get deployments: " ++ err ++ "\n"] }
  | .ok items =>
    { noOutput [.listDeployments ns] with
      stdout := [deployHeader, separatorLine] ++
        tableRows env deployRow items 0 }

/-- One row of `svcCmd.Run` (lines 226-238). -/
def svcRow (_env : Env) (_now : Int) (s : Service) : String :=
  padRight 25 s.name ++ " " ++ padRight 20 s.svcType ++ " " ++ padRight 15 s.clusterIP ++ " " ++
    padRight 15 (portSummary s.ports) ++ "\n"

/-- The handler `svcCmd.Run` (lines 211-240). -/
def svcRun (env : Env) (cl : Cluster) (args : List String) : Output :=
  let ns := if args.length > 0 then args.getD 0 "" else "default"
  match cl.listServices ns with
  | .error err =>
    { noOutput [.listServices ns] with stderr := ["Failed to get services: " ++ err ++ "\n"] }
  | .ok items =>
    { noOutput [.listServices ns] with
      stdout := [svcHeader, separatorLine] ++
        tableRows env svcRow items 0 }

/-- One row of `nsCmd.Run` (line 256). -/
def nsRow (_env : Env) (_now : Int) (n : Namespace) : String :=
  padRight 20 n.name ++ " " ++ padRight 15 n.phase ++ "\n"

/-- The handler `nsCmd.Run` (lines 246-258). -/
def nsRun (env : Env) (cl : Cluster) (_args : List String) : Output :=
  match cl.listNamespaces with
  | .error err =>
    { noOutput [.listNamespaces] with stderr := ["Failed to get namespaces: " ++ err ++ "\n"] }
  | .ok items =>
    { noOutput [.listNamespaces] with
      stdout := [nsHeader, separatorLine] ++
        tableRows env nsRow items 0 }

/-- The handler `logsCmd.Run` (lines 189-204); an argument list without `args[0]` is the
panic of the index expression. -/
def logsRun (cl : Cluster) (args : List String) : Output :=
  match goIndex args 0 with
  | none => { noOutput [] with panicked := true }
  | some podName =>
    let ns := if args.length > 1 then args.getD 1 "" else "default"
    let tailLines : Int := 100
    match cl.getPodLogs ns podName tailLines with
    | .error err =>
      { noOutput [.getPodLogs ns podName tailLines] with
        stderr := ["Failed to get logs: " ++ err ++ "\n"] }
    | .ok logs =>
      { noOutput [.getPodLogs ns podName tailLines] with stdout := [logs ++ "\n"] }

/-- The handler `scaleCmd.Run` (lines 159-182); an argument list without `args[0]` or
`args[1]` is the panic of the index expression. -/
def scaleRun (cl : Cluster) (args : List String) : Output :=
  match goIndex args 0 with
  | none => { noOutput [] with panicked := true }
  | some deployName =>
    match goIndex args 1 with
    | none => { noOutput [] with panicked := true }
    | some replicasArg =>
      let replicas := scaleReplicas replicasArg
      let ns := if args.length > 2 then args.getD 2 "" else "default"
      match cl.getDeployment ns deployName with
      | .error err =>
        { noOutput [.getDeployment ns deployName] with
          stderr := ["Failed to get deployment: " ++ err ++ "\n"] }
      | .ok deploy =>
        let deploy1 := { deploy with specReplicas := some replicas }
        match cl.updateDeployment ns deploy1 with
        | .error err =>
          { noOutput [.getDeployment ns deployName, .updateDeployment ns deploy1] with
            stderr := ["Failed to scale deployment: " ++ err ++ "\n"] }
        | .ok _ =>
          { noOutput [.getDeployment ns deployName, .updateDeployment ns deploy1] with
            stdout := ["✓ Scaled deployment " ++ deployName ++ " to " ++ fmtD replicas ++
              " replicas\n"] }

/-- The replica count of the update request a run sent, when it sent one. -/
def updateReplicas (out : Output) : Option Int :=
  out.calls.findSome? fun c =>
    match c with
    | .updateDeployment _ d => d.specReplicas
    | _ => none

/-- Every cluster call of the run addresses namespace `ns`, and there is at
least one. -/
def targetsNamespace (out : Output) (ns : String) : Prop :=
  out.calls ≠ [] ∧ ∀ c ∈ out.calls, c.namespace = some ns

/-! ## Sample inputs -/

/-- A clock that stands still at instant 0 and prints a duration as its
number of nanoseconds. -/
def sampleEnv : Env :=
  { clock := fun _ => 0, durationString := fun d => toString d ++ "ns" }

/-- A deployment named `web` with one replica. -/
def sampleDeployment : Deployment :=
  { name := "web", creationTimestamp := 0, specReplicas := some 1, replicas := 1,
    readyReplicas := 1, updatedReplicas := 1, availableReplicas := 1 }

/-- A cluster whose every call succeeds; `nodes` are the nodes it lists. -/
def sampleCluster (nodes : List Node) : Cluster :=
  { listNodes := .ok nodes
    listPods := fun _ => .ok []
    listDeployments := fun _ => .ok [sampleDeployment]
    getDeployment := fun _ _ => .ok sampleDeployment
    updateDeployment := fun _ d => .ok d
    listServices := fun _ => .ok []
    listNamespaces := .ok []
    getPodLogs := fun _ _ _ => .ok "" }

/-- A node that reports no condition yet. -/
def bareNode : Node :=
  { name := "node-1", creationTimestamp := 0, labels := [], conditions := [] }

/-! ## Auxiliary facts -/

theorem goLen_eq_zero_iff (s : String) : goLen s = 0 ↔ s = "" := by
  obtain ⟨cs⟩ := s
  cases cs with
  | nil => simp [goLen, String.utf8ByteSize, String.utf8ByteSize.go]
  | cons c cs =>
    have hc := Char.utf8Size_pos c
    constructor
    · intro h
      simp [goLen, String.utf8ByteSize, String.utf8ByteSize.go] at h
      omega
    · intro h
      exact absurd (congrArg String.data h) (by simp)

theorem goSliceTo_append_comma (t : String) :
    goSliceTo (t ++ ",") (goLen (t ++ ",") - 1) = t := by
  obtain ⟨cs⟩ := t
  have h := String.extract_of_valid [] cs [',']
  have h1 : String.utf8Len [','] = 1 := rfl
  have hlen : goLen ((⟨cs⟩ : String) ++ ",") - 1 = String.utf8Len cs := by
    show (String.mk (cs ++ [','])).utf8ByteSize - 1 = String.utf8Len cs
    rw [String.utf8ByteSize_mk, String.utf8Len_append, h1]
    omega
  rw [hlen]
  simpa [goSliceTo] using h

theorem join_cons (x : String) (xs : List String) :
    String.join (x :: xs) = x ++ String.join xs := by
  apply String.ext
  simp [String.data_join]

theorem join_nil : String.join [] = "" := rfl

theorem foldl_append_eq {α : Type} (f : α → String) (xs : List α) (acc : String) :
    xs.foldl (fun a x => a ++ f x) acc = acc ++ String.join (xs.map f) := by
  induction xs generalizing acc with
  | nil => simp [join_nil]
  | cons x xs ih =>
    simp only [List.foldl_cons, List.map_cons]
    rw [ih, join_cons, String.append_assoc]

theorem intercalate_go_comma (acc : String) (xs : List String) :
    String.intercalate.go acc "," xs ++ "," =
      (acc ++ ",") ++ String.join (xs.map (fun e => e ++ ",")) := by
  induction xs generalizing acc with
  | nil => simp [String.intercalate.go, join_nil]
  | cons x xs ih =>
    simp only [String.intercalate.go, List.map_cons]
    rw [ih, join_cons]
    simp [String.append_assoc]

theorem foldl_count_ready (cs : List ContainerStatus) (acc : Int) :
    cs.foldl (fun ready c => if c.ready then ready + 1 else ready) acc =
      acc + (cs.countP (fun c => c.ready) : Nat) := by
  induction cs generalizing acc with
  | nil => simp
  | cons c cs ih =>
    simp only [List.foldl_cons]
    rw [ih]
    by_cases h : c.ready = true
    · simp [h, List.countP_cons_of_pos]; omega
    · simp [h]

/-! ## Claims about the formatters -/

/-- C1: for every list of service ports the PORT(S) string is the entries
`"<port>/<protocol>"`, in list order, joined by single commas, with no
trailing comma; for the empty list it is the empty string, and
`[{80,TCP},{443,TCP}]` gives `"80/TCP,443/TCP"`. -/
theorem C1_portSummary_eq_intercalate :
    (∀ ps : List ServicePort, portSummary ps = ",".intercalate (ps.map portEntry)) ∧
    portSummary [] = "" ∧
    portSummary [⟨80, "TCP"⟩, ⟨443, "TCP"⟩] = "80/TCP,443/TCP" := by
  refine ⟨?_, by decide, by decide⟩
  intro ps
  cases ps with
  | nil => decide
  | cons p ps =>
    have hfold : (p :: ps).foldl
        (fun acc q => acc ++ (fmtD q.port ++ "/" ++ q.protocol ++ ",")) "" =
        String.intercalate.go (portEntry p) "," (ps.map portEntry) ++ "," := by
      have h := foldl_append_eq (fun q : ServicePort => portEntry q ++ ",") (p :: ps) ""
      simp only [portEntry] at h ⊢
      rw [h, intercalate_go_comma, List.map_cons, join_cons, List.map_map]
      simp [Function.comp_def, portEntry]
    have hpos : goLen (String.intercalate.go (portEntry p) "," (ps.map portEntry) ++ ",") > 0 := by
      rcases Nat.eq_zero_or_pos
        (goLen (String.intercalate.go (portEntry p) "," (ps.map portEntry) ++ ",")) with h | h
      · rw [goLen_eq_zero_iff] at h
        have := congrArg String.length h
        simp only [String.length_append] at this
        have h1 : ("," : String).length = 1 := rfl
        have h0 : ("" : String).length = 0 := rfl
        rw [h1, h0] at this
        omega
      · exact h
    simp only [portSummary]
    rw [hfold, if_pos hpos, goSliceTo_append_comma]
    rfl

theorem foldl_roles_eq (labels : List (String × String)) (acc : String) :
    labels.foldl
      (fun roles kv =>
        if kv.2 = "master" ∨ kv.2 = "control-plane" then roles ++ (kv.1 ++ ",") else roles) acc =
      acc ++ String.join
        (((labels.filter fun kv => isRoleValue kv.2).map Prod.fst).map fun k => k ++ ",") := by
  induction labels generalizing acc with
  | nil => simp [join_nil]
  | cons kv labels ih =>
    simp only [List.foldl_cons]
    rw [ih]
    by_cases h : kv.2 = "master" ∨ kv.2 = "control-plane"
    · have hv : isRoleValue kv.2 = true := by simpa [isRoleValue] using h
      have hf : (List.filter (fun kv : String × String => isRoleValue kv.2) (kv :: labels)) =
          kv :: List.filter (fun kv : String × String => isRoleValue kv.2) labels :=
        List.filter_cons_of_pos hv
      rw [if_pos h, hf, List.map_cons, List.map_cons, join_cons, String.append_assoc]
    · have hv : ¬ (isRoleValue kv.2 = true) := by simpa [isRoleValue] using h
      have hf : (List.filter (fun kv : String × String => isRoleValue kv.2) (kv :: labels)) =
          List.filter (fun kv : String × String => isRoleValue kv.2) labels :=
        List.filter_cons_of_neg hv
      rw [if_neg h, hf]

theorem join_comma_ne_empty (k : String) (ks : List String) :
    String.join ((k :: ks).map fun x => x ++ ",") ≠ "" := by
  intro h
  have hd := congrArg String.data h
  rw [List.map_cons, join_cons] at hd
  simp only [String.data_append] at hd
  have hl := congrArg List.length hd
  have h1 : ("," : String).data.length = 1 := rfl
  have h0 : ("" : String).data.length = 0 := rfl
  simp only [List.length_append, h1, h0] at hl
  omega

/-- C2: for every label map (its entries in any visiting order), when no
value is "master" or "control-plane" the role string is exactly "worker";
otherwise it is the concatenation, each followed by a comma, of the keys whose
value is "master" or "control-plane": each such key once and no other key.
Labels {"node-role.kubernetes.io/master": "master"} give
"node-role.kubernetes.io/master,". -/
theorem C2_nodeRoles_classification (labels : List (String × String))
    (hmap : (labels.map Prod.fst).Nodup) :
    ((∀ kv ∈ labels, ¬ (kv.2 = "master" ∨ kv.2 = "control-plane")) →
      nodeRoles labels = "worker") ∧
    ((∃ kv ∈ labels, kv.2 = "master" ∨ kv.2 = "control-plane") →
      ∃ ks : List String,
        nodeRoles labels = String.join (ks.map fun k => k ++ ",") ∧
        ks.Nodup ∧
        ∀ k, k ∈ ks ↔ ∃ v, (k, v) ∈ labels ∧ (v = "master" ∨ v = "control-plane")) ∧
    nodeRoles [("node-role.kubernetes.io/master", "master")] =
      "node-role.kubernetes.io/master," := by
  have hfold := foldl_roles_eq labels ""
  refine ⟨?_, ?_, by decide⟩
  · intro hnone
    have hf : (labels.filter fun kv => isRoleValue kv.2) = [] := by
      rw [List.filter_eq_nil_iff]
      intro kv hkv
      simpa [isRoleValue] using hnone kv hkv
    simp only [nodeRoles]
    rw [hfold, hf]
    decide
  · intro hsome
    refine ⟨(labels.filter fun kv => isRoleValue kv.2).map Prod.fst, ?_, ?_, ?_⟩
    · obtain ⟨kv, hkv, hv⟩ := hsome
      have hmem : kv ∈ labels.filter fun kv => isRoleValue kv.2 := by
        rw [List.mem_filter]
        exact ⟨hkv, by simpa [isRoleValue] using hv⟩
      have hne : String.join
          (((labels.filter fun kv => isRoleValue kv.2).map Prod.fst).map fun k => k ++ ",")
            ≠ "" := by
        cases hl : (labels.filter fun kv => isRoleValue kv.2) with
        | nil => rw [hl] at hmem; exact absurd hmem (List.not_mem_nil _)
        | cons x xs => exact join_comma_ne_empty _ _
      have hempty : ("" : String) ++ String.join
          (((labels.filter fun kv => isRoleValue kv.2).map Prod.fst).map fun k => k ++ ",") =
          String.join
          (((labels.filter fun kv => isRoleValue kv.2).map Prod.fst).map fun k => k ++ ",") := by
        apply String.ext
        simp
      simp only [nodeRoles]
      rw [hfold, hempty, if_neg hne]
    · exact (List.Nodup.sublist (List.Sublist.map Prod.fst (List.filter_sublist labels)) hmap)
    · intro k
      simp only [List.mem_map, List.mem_filter, isRoleValue, Bool.or_eq_true, decide_eq_true_eq]
      constructor
      · rintro ⟨⟨k1, v⟩, ⟨hmem, hv⟩, rfl⟩
        exact ⟨v, hmem, hv⟩
      · rintro ⟨v, hmem, hv⟩
        exact ⟨(k, v), ⟨hmem, hv⟩, rfl⟩

/-- Witness of C2 on a two-label map with one control-plane label. -/
theorem C2_nodeRoles_classification_witness :
    ∃ ks : List String,
      nodeRoles [("role", "control-plane"), ("zone", "a")] =
        String.join (ks.map fun k => k ++ ",") ∧
      ks.Nodup ∧
      ∀ k, k ∈ ks ↔ ∃ v, (k, v) ∈ [("role", "control-plane"), ("zone", "a")] ∧
        (v = "master" ∨ v = "control-plane") :=
  (C2_nodeRoles_classification [("role", "control-plane"), ("zone", "a")] (by decide)).2.1
    ⟨("role", "control-plane"), List.mem_cons_self _ _, Or.inr rfl⟩

/-- C3 fails as stated: a pod with one ready container status and no spec
container has ready count 1 and total 0. -/
theorem C3_ready_exceeds_total :
    ¬ (getReadyContainers ⟨"p", 0, [], "Running", [⟨"c", true⟩]⟩ ≤
        ((⟨"p", 0, [], "Running", [⟨"c", true⟩]⟩ : Pod).containers.length : Int)) := by
  decide

/-- C3 (amended): the ready count is at least 0 and at most the number of
container statuses, hence at most the number of spec containers for every pod
that has no more statuses than spec containers. -/
theorem C3_ready_le_statuses (pod : Pod) :
    0 ≤ getReadyContainers pod ∧
    getReadyContainers pod ≤ (pod.containerStatuses.length : Int) ∧
    (pod.containerStatuses.length ≤ pod.containers.length →
      getReadyContainers pod ≤ (pod.containers.length : Int)) := by
  have h := foldl_count_ready pod.containerStatuses 0
  have hle : List.countP (fun c : ContainerStatus => c.ready) pod.containerStatuses ≤
      pod.containerStatuses.length := List.countP_le_length _
  simp only [getReadyContainers]
  rw [h]
  refine ⟨by omega, by omega, fun hlen => by omega⟩

/-- Witness of C3 (amended) on a pod with two spec containers and two
statuses, one of them ready. -/
theorem C3_ready_le_statuses_witness :
    getReadyContainers ⟨"p", 0, [⟨"a"⟩, ⟨"b"⟩], "Running", [⟨"a", true⟩, ⟨"b", false⟩]⟩ ≤ 2 :=
  (C3_ready_le_statuses ⟨"p", 0, [⟨"a"⟩, ⟨"b"⟩], "Running", [⟨"a", true⟩, ⟨"b", false⟩]⟩).2.2
    (by decide)

/-- C4: for every pod the READY cell is "<r>/<t>", with r the number of
container statuses whose ready flag is true and t the number of spec
containers, both in decimal. -/
theorem C4_podReady_format (pod : Pod) :
    podReady pod =
      Nat.repr (pod.containerStatuses.countP fun c => c.ready) ++ "/" ++
        Nat.repr pod.containers.length := by
  have h := foldl_count_ready pod.containerStatuses 0
  simp only [podReady, getReadyContainers]
  rw [h, Int.zero_add]
  rfl

/-! ## Argument validation and namespaces -/

theorem accepts_MinimumNArgs (n : Nat) (args : List String) :
    accepts (MinimumNArgs n) args = true ↔ n ≤ args.length := by
  unfold accepts MinimumNArgs
  by_cases h : args.length < n
  · simp [h]
  · simp [h]; omega

theorem accepts_MaximumNArgs (n : Nat) (args : List String) :
    accepts (MaximumNArgs n) args = true ↔ args.length ≤ n := by
  unfold accepts MaximumNArgs
  by_cases h : args.length > n
  · simp [h]
  · simp [h]; omega

theorem accepts_RangeArgs (lo hi : Nat) (args : List String) :
    accepts (RangeArgs lo hi) args = true ↔ lo ≤ args.length ∧ args.length ≤ hi := by
  unfold accepts RangeArgs
  by_cases h : args.length < lo ∨ args.length > hi
  · simp [h]; omega
  · simp [h]; omega

/-- C5: the validation of `scale` does not reject a fourth argument: it lets
through `scale web 3 prod extra`, and in general exactly the argument lists of
length at least 2. -/
theorem C5_scale_accepts_four_args :
    accepts scaleArgs ["web", "3", "prod", "extra"] = true ∧
    ∀ args : List String, accepts scaleArgs args = true ↔ 2 ≤ args.length :=
  ⟨by decide, fun args => accepts_MinimumNArgs 2 args⟩

theorem length_le_one {α : Type} (args : List α) (h : args.length ≤ 1) :
    args = [] ∨ ∃ a, args = [a] := by
  match args, h with
  | [], _ => exact Or.inl rfl
  | [a], _ => exact Or.inr ⟨a, rfl⟩
  | _ :: _ :: _, h => simp at h

theorem scaleRun_targets (cl : Cluster) (d r : String) (more : List String) :
    targetsNamespace (scaleRun cl (d :: r :: more)) (more.headD "default") := by
  have hns : (if (d :: r :: more).length > 2 then (d :: r :: more).getD 2 "" else "default") =
      more.headD "default" := by
    cases more <;> simp
  unfold targetsNamespace
  simp only [scaleRun, goIndex]
  rw [hns]
  simp only [List.length_cons, Int.toNat_zero, List.get?_cons_zero]
  have h0 : (0 : Int) ≤ 0 ∧ (0 : Int) < ((more.length + 1 + 1 : Nat) : Int) := by omega
  have h1 : (0 : Int) ≤ 1 ∧ (1 : Int) < ((more.length + 1 + 1 : Nat) : Int) := by omega
  rw [if_pos h0, if_pos h1]
  simp only [show (1 : Int).toNat = 1 from rfl, List.get?_cons_succ, List.get?_cons_zero]
  cases cl.getDeployment (more.headD "default") d with
  | error e => simp [noOutput, ApiCall.namespace]
  | ok dep =>
    simp only []
    cases cl.updateDeployment (more.headD "default")
        { dep with specReplicas := some (scaleReplicas r) } with
    | error e => simp [noOutput, ApiCall.namespace]
    | ok dep1 => simp [noOutput, ApiCall.namespace]

theorem podsRun_targets (env : Env) (cl : Cluster) (args : List String) :
    targetsNamespace (podsRun env cl args) (args.headD "default") := by
  have hns : (if args.length > 0 then args.getD 0 "" else "default") = args.headD "default" := by
    cases args <;> simp
  unfold targetsNamespace
  simp only [podsRun]
  rw [hns]
  cases cl.listPods (args.headD "default") <;> simp [noOutput, ApiCall.namespace]

theorem deployRun_targets (env : Env) (cl : Cluster) (args : List String) :
    targetsNamespace (deployRun env cl args) (args.headD "default") := by
  have hns : (if args.length > 0 then args.getD 0 "" else "default") = args.headD "default" := by
    cases args <;> simp
  unfold targetsNamespace
  simp only [deployRun]
  rw [hns]
  cases cl.listDeployments (args.headD "default") <;> simp [noOutput, ApiCall.namespace]

theorem svcRun_targets (env : Env) (cl : Cluster) (args : List String) :
    targetsNamespace (svcRun env cl args) (args.headD "default") := by
  have hns : (if args.length > 0 then args.getD 0 "" else "default") = args.headD "default" := by
    cases args <;> simp
  unfold targetsNamespace
  simp only [svcRun]
  rw [hns]
  cases cl.listServices (args.headD "default") <;> simp [noOutput, ApiCall.namespace]

theorem logsRun_targets (cl : Cluster) (p : String) (more : List String) :
    targetsNamespace (logsRun cl (p :: more)) (more.headD "default") := by
  have hns : (if (p :: more).length > 1 then (p :: more).getD 1 "" else "default") =
      more.headD "default" := by
    cases more <;> simp
  unfold targetsNamespace
  simp only [logsRun, goIndex]
  rw [hns]
  simp only [List.length_cons, Int.toNat_zero, List.get?_cons_zero]
  have h0 : (0 : Int) ≤ 0 ∧ (0 : Int) < ((more.length + 1 : Nat) : Int) := by omega
  rw [if_pos h0]
  simp only []
  split <;> simp [noOutput, ApiCall.namespace]

/-- C7: with an accepted argument list, `pods`, `deploy` and `svc` address
namespace "default" when given no argument and `args[0]` when given one;
`logs` addresses "default" with one argument and `args[1]` with two; `scale`
addresses "default" with two arguments and `args[2]` with three (and with
more).  No cluster call of the run addresses another namespace. -/
theorem C7_namespace_defaulting (env : Env) (cl : Cluster) (args : List String) :
    (accepts podsArgs args = true →
      (args = [] ∧ targetsNamespace (podsRun env cl args) "default") ∨
      (∃ a, args = [a] ∧ targetsNamespace (podsRun env cl args) a)) ∧
    (accepts deployArgs args = true →
      (args = [] ∧ targetsNamespace (deployRun env cl args) "default") ∨
      (∃ a, args = [a] ∧ targetsNamespace (deployRun env cl args) a)) ∧
    (accepts svcArgs args = true →
      (args = [] ∧ targetsNamespace (svcRun env cl args) "default") ∨
      (∃ a, args = [a] ∧ targetsNamespace (svcRun env cl args) a)) ∧
    (accepts logsArgs args = true →
      (∃ p, args = [p] ∧ targetsNamespace (logsRun cl args) "default") ∨
      (∃ p a, args = [p, a] ∧ targetsNamespace (logsRun cl args) a)) ∧
    (accepts scaleArgs args = true →
      (∃ d r, args = [d, r] ∧ targetsNamespace (scaleRun cl args) "default") ∨
      (∃ d r a more, args = d :: r :: a :: more ∧ targetsNamespace (scaleRun cl args) a)) := by
  refine ⟨?_, ?_, ?_, ?_, ?_⟩
  · intro h
    rcases length_le_one args ((accepts_MaximumNArgs 1 args).mp h) with rfl | ⟨a, rfl⟩
    · exact Or.inl ⟨rfl, podsRun_targets env cl []⟩
    · exact Or.inr ⟨a, rfl, podsRun_targets env cl [a]⟩
  · intro h
    rcases length_le_one args ((accepts_MaximumNArgs 1 args).mp h) with rfl | ⟨a, rfl⟩
    · exact Or.inl ⟨rfl, deployRun_targets env cl []⟩
    · exact Or.inr ⟨a, rfl, deployRun_targets env cl [a]⟩
  · intro h
    rcases length_le_one args ((accepts_MaximumNArgs 1 args).mp h) with rfl | ⟨a, rfl⟩
    · exact Or.inl ⟨rfl, svcRun_targets env cl []⟩
    · exact Or.inr ⟨a, rfl, svcRun_targets env cl [a]⟩
  · intro h
    have hlen := (accepts_RangeArgs 1 2 args).mp h
    match args, hlen with
    | [p], _ => exact Or.inl ⟨p, rfl, logsRun_targets cl p []⟩
    | [p, a], _ => exact Or.inr ⟨p, a, rfl, logsRun_targets cl p [a]⟩
    | [], hlen => simp at hlen
    | _ :: _ :: _ :: _, hlen => simp at hlen
  · intro h
    have hlen := (accepts_MinimumNArgs 2 args).mp h
    match args, hlen with
    | [d, r], _ => exact Or.inl ⟨d, r, rfl, scaleRun_targets cl d r []⟩
    | d :: r :: a :: more, _ => exact Or.inr ⟨d, r, a, more, rfl, scaleRun_targets cl d r (a :: more)⟩
    | [], hlen => simp at hlen
    | [_], hlen => simp at hlen

/-- Witness of C7: `pods kube-system` addresses `kube-system`. -/
theorem C7_namespace_defaulting_witness :
    (["kube-system"] = ([] : List String) ∧
        targetsNamespace (podsRun sampleEnv (sampleCluster []) ["kube-system"]) "default") ∨
    (∃ a, ["kube-system"] = [a] ∧
        targetsNamespace (podsRun sampleEnv (sampleCluster []) ["kube-system"]) a) :=
  (C7_namespace_defaulting sampleEnv (sampleCluster []) ["kube-system"]).1 (by decide)

/-! ## Age -/

theorem tmod_hour_nonneg (d : Int) (h : 0 ≤ d) : Int.tmod d hour = d % 3600000000000 := by
  unfold hour
  rw [Int.tmod_eq_emod h (by decide)]

theorem tmod_hour_neg (d : Int) (h : d < 0) : Int.tmod d hour = -((-d) % 3600000000000) := by
  unfold hour
  cases d with
  | ofNat k => exact absurd h (by simp)
  | negSucc k =>
    show -(((k + 1) % 3600000000000 : Nat) : Int) = _
    rw [Int.neg_negSucc]
    omega

theorem timeSub_eq (t u : Int) :
    timeSub t u = if t - u < minDuration then minDuration
      else if t - u > maxDuration then maxDuration else t - u := by
  unfold timeSub wrap64 minDuration maxDuration
  simp only
  split_ifs <;> omega

theorem round_hour_nonneg (d : Int) (h0 : 0 ≤ d) (h1 : d ≤ maxDuration) :
    durationRound d hour =
      if 2 * (d % 3600000000000) < 3600000000000 then d - d % 3600000000000
      else if d + 3600000000000 - d % 3600000000000 ≤ maxDuration
        then d + 3600000000000 - d % 3600000000000 else maxDuration := by
  unfold durationRound
  have hh : ¬ (hour ≤ 0) := by decide
  have hd : ¬ (d < 0) := by omega
  simp only [hh, hd, if_false, lessThanHalf, toUint64, wrap64, decide_eq_true_eq]
  rw [tmod_hour_nonneg d h0]
  unfold maxDuration hour at *
  split_ifs <;> omega

theorem round_hour_neg (d : Int) (h0 : d < 0) (h1 : minDuration ≤ d) :
    durationRound d hour =
      if 2 * ((-d) % 3600000000000) < 3600000000000 then d + (-d) % 3600000000000
      else if minDuration ≤ d - 3600000000000 + (-d) % 3600000000000
        then d - 3600000000000 + (-d) % 3600000000000 else minDuration := by
  unfold durationRound
  have hh : ¬ (hour ≤ 0) := by decide
  simp only [hh, h0, if_false, if_true, lessThanHalf, toUint64, wrap64, decide_eq_true_eq]
  rw [tmod_hour_neg d h0]
  unfold minDuration hour at *
  split_ifs <;> omega

theorem round_hour_mono (d1 d2 : Int) (h1 : minDuration ≤ d1) (h2 : d2 ≤ maxDuration)
    (h : d1 ≤ d2) : durationRound d1 hour ≤ durationRound d2 hour := by
  by_cases hd1 : d1 < 0 <;> by_cases hd2 : d2 < 0
  · rw [round_hour_neg d1 hd1 h1, round_hour_neg d2 hd2 (by omega)]
    unfold minDuration maxDuration at *
    split_ifs <;> omega
  · rw [round_hour_neg d1 hd1 h1, round_hour_nonneg d2 (by omega) h2]
    unfold minDuration maxDuration at *
    split_ifs <;> omega
  · omega
  · rw [round_hour_nonneg d1 (by omega) (by omega), round_hour_nonneg d2 (by omega) h2]
    unfold minDuration maxDuration at *
    split_ifs <;> omega

theorem timeSub_bounds (t u : Int) : minDuration ≤ timeSub t u ∧ timeSub t u ≤ maxDuration := by
  rw [timeSub_eq]
  unfold minDuration maxDuration
  split_ifs <;> omega

theorem timeSub_anti (now c1 c2 : Int) (h : c1 ≤ c2) : timeSub now c2 ≤ timeSub now c1 := by
  rw [timeSub_eq, timeSub_eq]
  unfold minDuration maxDuration
  split_ifs <;> omega

theorem age_nonneg (now c : Int) (h : c ≤ now) : 0 ≤ age now c := by
  have hb := timeSub_bounds now c
  have h0 : 0 ≤ timeSub now c := by
    rw [timeSub_eq]
    unfold minDuration maxDuration
    split_ifs <;> omega
  unfold age
  rw [round_hour_nonneg _ h0 hb.2]
  unfold maxDuration
  split_ifs <;> omega

/-- C9: at one evaluation instant, an earlier creation timestamp gives an age
(the difference rounded to the nearest hour by `Duration.Round`) at least as
large as a later one, and a creation timestamp not after the instant gives a
non-negative age. -/
theorem C9_age_monotone (now c1 c2 : Int) (h : c1 ≤ c2) :
    age now c2 ≤ age now c1 ∧ (c1 ≤ now → 0 ≤ age now c1) ∧ (c2 ≤ now → 0 ≤ age now c2) :=
  ⟨round_hour_mono _ _ (timeSub_bounds now c2).1 (timeSub_bounds now c1).2
      (timeSub_anti now c1 c2 h),
    age_nonneg now c1, age_nonneg now c2⟩

/-- Witness of C9: at instant 10h, creation at 1h30m and at 4h give ages 9h
and 6h. -/
theorem C9_age_monotone_witness :
    age 36000000000000 14400000000000 ≤ age 36000000000000 5400000000000 ∧
    0 ≤ age 36000000000000 5400000000000 ∧
    age 36000000000000 5400000000000 = 32400000000000 :=
  ⟨(C9_age_monotone 36000000000000 5400000000000 14400000000000 (by decide)).1,
    (C9_age_monotone 36000000000000 5400000000000 14400000000000 (by decide)).2.1 (by decide),
    by decide⟩

/-! ## Table output -/

theorem tableRows_length {α : Type} (env : Env) (row : Env → Int → α → String)
    (items : List α) (i : Nat) : (tableRows env row items i).length = items.length := by
  induction items generalizing i with
  | nil => rfl
  | cons x more ih => simp [tableRows, ih]

/-- A failed list call: the handler writes one message to the error stream and
nothing to standard output. -/
theorem list_failure_prints_only_error (env : Env) (cl : Cluster) (args : List String)
    (err : String) :
    (cl.listNodes = .error err →
      (nodesRun env cl args).stdout = [] ∧
      (nodesRun env cl args).stderr = ["Failed to get nodes: " ++ err ++ "\n"]) ∧
    (cl.listPods (if args.length > 0 then args.getD 0 "" else "default") = .error err →
      (podsRun env cl args).stdout = [] ∧
      (podsRun env cl args).stderr = ["Failed to get pods: " ++ err ++ "\n"]) ∧
    (cl.listDeployments (if args.length > 0 then args.getD 0 "" else "default") = .error err →
      (deployRun env cl args).stdout = [] ∧
      (deployRun env cl args).stderr = ["Failed to get deployments: " ++ err ++ "\n"]) ∧
    (cl.listServices (if args.length > 0 then args.getD 0 "" else "default") = .error err →
      (svcRun env cl args).stdout = [] ∧
      (svcRun env cl args).stderr = ["Failed to get services: " ++ err ++ "\n"]) ∧
    (cl.listNamespaces = .error err →
      (nsRun env cl args).stdout = [] ∧
      (nsRun env cl args).stderr = ["Failed to get namespaces: " ++ err ++ "\n"]) := by
  refine ⟨?_, ?_, ?_, ?_, ?_⟩
  · intro h; simp [nodesRun, h, noOutput]
  · intro h; simp only [podsRun]; rw [h]; simp [noOutput]
  · intro h; simp only [deployRun]; rw [h]; simp [noOutput]
  · intro h; simp only [svcRun]; rw [h]; simp [noOutput]
  · intro h; simp [nsRun, h, noOutput]

/-- A successful list call of `pods`, `deploy`, `svc` or `ns`: the header and
the separator line, then one row per item, in the order of the response. -/
theorem list_success_prints_rows (env : Env) (cl : Cluster) (args : List String) :
    (∀ items, cl.listPods (if args.length > 0 then args.getD 0 "" else "default") = .ok items →
      (podsRun env cl args).stdout =
          podsHeader :: separatorLine :: tableRows env podRow items 0 ∧
        (podsRun env cl args).stderr = []) ∧
    (∀ items,
      cl.listDeployments (if args.length > 0 then args.getD 0 "" else "default") = .ok items →
      (deployRun env cl args).stdout =
          deployHeader :: separatorLine :: tableRows env deployRow items 0 ∧
        (deployRun env cl args).stderr = []) ∧
    (∀ items,
      cl.listServices (if args.length > 0 then args.getD 0 "" else "default") = .ok items →
      (svcRun env cl args).stdout =
          svcHeader :: separatorLine :: tableRows env svcRow items 0 ∧
        (svcRun env cl args).stderr = []) ∧
    (∀ items, cl.listNamespaces = .ok items →
      (nsRun env cl args).stdout =
          nsHeader :: separatorLine :: tableRows env nsRow items 0 ∧
        (nsRun env cl args).stderr = []) := by
  refine ⟨?_, ?_, ?_, ?_⟩
  · intro items h
    constructor <;> (simp only [podsRun]; rw [h]; simp [noOutput])
  · intro items h
    constructor <;> (simp only [deployRun]; rw [h]; simp [noOutput])
  · intro items h
    constructor <;> (simp only [svcRun]; rw [h]; simp [noOutput])
  · intro items h
    constructor <;> simp [nsRun, h, noOutput]

theorem goIndex_last {α : Type} (xs : List α) (x : α) :
    goIndex (xs ++ [x]) (((xs ++ [x]).length : Int) - 1) = some x := by
  unfold goIndex
  have hlen : (((xs ++ [x]).length : Int) - 1) = (xs.length : Int) := by simp
  rw [hlen]
  have hcond : (0 : Int) ≤ (xs.length : Int) ∧ (xs.length : Int) < ((xs ++ [x]).length : Int) := by
    simp
  rw [if_pos hcond]
  simp

/-- A node with at least one condition gets a row, and the STATUS cell of the
row is the type of the condition at the last position. -/
theorem nodeRow_of_conditions (env : Env) (now : Int) (node : Node)
    (conds : List NodeCondition) (last : NodeCondition) (h : node.conditions = conds ++ [last]) :
    nodeRow env now node =
      some (padRight 20 node.name ++ " " ++ padRight 15 last.condType ++ " " ++
        padRight 20 (nodeRoles node.labels) ++ " " ++
        padRight 15 (env.durationString (age now node.creationTimestamp)) ++ "\n") := by
  simp only [nodeRow]
  rw [h, goIndex_last]

theorem nodesLoop_of_conditions (env : Env) (items : List Node)
    (h : ∀ n ∈ items, n.conditions ≠ []) (i : Nat) (out : Output) :
    (nodesLoop env items i out).stdout.length = out.stdout.length + items.length ∧
    (nodesLoop env items i out).panicked = out.panicked ∧
    (nodesLoop env items i out).stderr = out.stderr := by
  induction items generalizing i out with
  | nil => simp [nodesLoop]
  | cons n more ih =>
    have hn : n.conditions ≠ [] := h n (List.mem_cons_self _ _)
    obtain ⟨conds, last, hc⟩ : ∃ conds last, n.conditions = conds ++ [last] :=
      ⟨n.conditions.dropLast, n.conditions.getLast hn, (List.dropLast_append_getLast hn).symm⟩
    have hrow := nodeRow_of_conditions env (env.clock i) n conds last hc
    have hmore : ∀ m ∈ more, m.conditions ≠ [] := fun m hm => h m (List.mem_cons_of_mem _ hm)
    simp only [nodesLoop]
    rw [hrow]
    simp only []
    obtain ⟨h1, h2, h3⟩ := ih hmore (i + 1)
      { out with stdout := out.stdout ++ [padRight 20 n.name ++ " " ++
          padRight 15 last.condType ++ " " ++ padRight 20 (nodeRoles n.labels) ++ " " ++
          padRight 15 (env.durationString (age (env.clock i) n.creationTimestamp)) ++ "\n"] }
    refine ⟨?_, h2, h3⟩
    rw [h1]
    simp
    omega

theorem nodesLoop_rows (env : Env) (items : List Node)
    (h : ∀ n ∈ items, n.conditions ≠ []) (i : Nat) (out : Output) :
    ∃ rows : List String,
      (nodesLoop env items i out).stdout = out.stdout ++ rows ∧
      ∀ k node, items.get? k = some node →
        rows.get? k = nodeRow env (env.clock (i + k)) node := by
  induction items generalizing i out with
  | nil => exact ⟨[], by simp [nodesLoop], by intro k node hk; simp at hk⟩
  | cons n more ih =>
    have hn : n.conditions ≠ [] := h n (List.mem_cons_self _ _)
    obtain ⟨conds, last, hc⟩ : ∃ conds last, n.conditions = conds ++ [last] :=
      ⟨n.conditions.dropLast, n.conditions.getLast hn, (List.dropLast_append_getLast hn).symm⟩
    have hrow := nodeRow_of_conditions env (env.clock i) n conds last hc
    have hmore : ∀ m ∈ more, m.conditions ≠ [] := fun m hm => h m (List.mem_cons_of_mem _ hm)
    obtain ⟨rows, hrows, hget⟩ := ih hmore (i + 1)
      { out with stdout := out.stdout ++ [padRight 20 n.name ++ " " ++
          padRight 15 last.condType ++ " " ++ padRight 20 (nodeRoles n.labels) ++ " " ++
          padRight 15 (env.durationString (age (env.clock i) n.creationTimestamp)) ++ "\n"] }
    refine ⟨(padRight 20 n.name ++ " " ++ padRight 15 last.condType ++ " " ++
        padRight 20 (nodeRoles n.labels) ++ " " ++
        padRight 15 (env.durationString (age (env.clock i) n.creationTimestamp)) ++ "\n") ::
        rows, ?_, ?_⟩
    · simp only [nodesLoop]
      rw [hrow]
      simp only []
      rw [hrows]
      simp
    · intro k node hk
      cases k with
      | zero =>
        simp only [List.get?_cons_zero, Option.some.injEq] at hk
        rw [← hk, List.get?_cons_zero, Nat.add_zero, hrow]
      | succ k =>
        simp only [List.get?_cons_succ] at hk
        have hidx : i + (k + 1) = i + 1 + k := by omega
        rw [List.get?_cons_succ, hidx]
        exact hget k node hk

/-- A successful list call of `nodes` whose nodes all have a condition: the
header and the separator line, then one row per node, the row of the `k`-th
node being what `nodeRow` renders for it, in the order of the response. -/
theorem nodes_success_prints_rows (env : Env) (cl : Cluster) (args : List String)
    (items : List Node) (hok : cl.listNodes = .ok items)
    (h : ∀ n ∈ items, n.conditions ≠ []) :
    (nodesRun env cl args).stdout.length = 2 + items.length ∧
    (nodesRun env cl args).panicked = false ∧
    (nodesRun env cl args).stderr = [] ∧
    ∃ rows : List String,
      (nodesRun env cl args).stdout = nodesHeader :: separatorLine :: rows ∧
      ∀ k node, items.get? k = some node →
        rows.get? k = nodeRow env (env.clock k) node := by
  simp only [nodesRun]
  rw [hok]
  simp only []
  obtain ⟨h1, h2, h3⟩ := nodesLoop_of_conditions env items h 0
    { noOutput [.listNodes] with stdout := [nodesHeader, separatorLine] }
  obtain ⟨rows, hrows, hget⟩ := nodesLoop_rows env items h 0
    { noOutput [.listNodes] with stdout := [nodesHeader, separatorLine] }
  refine ⟨by rw [h1]; simp, by rw [h2]; rfl, by rw [h3]; rfl, rows, ?_, ?_⟩
  · rw [hrows]
    rfl
  · intro k node hk
    have := hget k node hk
    rw [Nat.zero_add] at this
    exact this

/-- C8: a successful `nodes` list call that returns a node without conditions
does not end in one row per item: the handler prints the header and the
separator line, then panics on the node, with no row for it. -/
theorem C8_nodes_success_without_row (env : Env) :
    (sampleCluster [bareNode]).listNodes = .ok [bareNode] ∧
    (nodesRun env (sampleCluster [bareNode]) []).stdout =
      [nodesHeader, separatorLine] ∧
    (nodesRun env (sampleCluster [bareNode]) []).stderr = [] ∧
    (nodesRun env (sampleCluster [bareNode]) []).panicked = true := by
  refine ⟨rfl, ?_, ?_, ?_⟩ <;> rfl

/-- C10: a node whose condition list is empty gets no row: the index
`len(conditions)-1` is -1, out of range, and the row expression panics. -/
theorem C10_nodeRow_panics_without_conditions (env : Env) (now : Int) (name : String)
    (created : Int) (labels : List (String × String)) :
    goIndex ([] : List NodeCondition) ((([] : List NodeCondition).length : Int) - 1) = none ∧
    nodeRow env now ⟨name, created, labels, []⟩ = none := by
  constructor <;> rfl

/-! ## Replica parsing -/

/-- Sample scans: leading white space is skipped, the scan stops at the first
character that is not a decimal digit, and a newline, a missing digit or a
value outside `int32` is an error and leaves 0. -/
theorem scaleReplicas_samples :
    scaleReplicas "-7" = -7 ∧ scaleReplicas " 5" = 5 ∧ scaleReplicas "+5" = 5 ∧
    scaleReplicas "1_0" = 1 ∧ scaleReplicas "12_" = 12 ∧ scaleReplicas "3_replicas" = 3 ∧
    scaleReplicas "007" = 7 ∧ scaleReplicas "-abc" = 0 ∧ scaleReplicas "-" = 0 ∧
    scaleReplicas "+-5" = 0 ∧ scaleReplicas "\n5" = 0 ∧ scaleReplicas "_5" = 0 ∧
    scaleReplicas "2147483647" = 2147483647 ∧ scaleReplicas "2147483648" = 0 ∧
    scaleReplicas "-2147483648" = -2147483648 ∧
    scaleReplicas "99999999999999999999999" = 0 ∧ scaleReplicas "" = 0 := by
  decide

theorem digitChar_toNat (m : Nat) (h : m < 10) : (Nat.digitChar m).toNat = 48 + m := by
  interval_cases m <;> rfl

theorem digitChar_isDecDigit (m : Nat) (h : m < 10) : isDecDigit (Nat.digitChar m) = true := by
  interval_cases m <;> rfl

theorem decVal_append_single (acc : Nat) (ds : List Char) (c : Char) :
    decVal acc (ds ++ [c]) = decVal acc ds * 10 + (c.toNat - 48) := by
  simp [decVal, List.foldl_append]

theorem toDigitsCore_acc (fuel n : Nat) (acc : List Char) :
    Nat.toDigitsCore 10 fuel n acc = Nat.toDigitsCore 10 fuel n [] ++ acc := by
  induction fuel generalizing n acc with
  | zero => simp [Nat.toDigitsCore]
  | succ fuel ih =>
    by_cases hq : n / 10 = 0
    · simp [Nat.toDigitsCore, hq]
    · simp only [Nat.toDigitsCore, hq, if_false]
      rw [ih (n / 10) (Nat.digitChar (n % 10) :: acc), ih (n / 10) [Nat.digitChar (n % 10)]]
      simp

theorem toDigitsCore_step (fuel n : Nat) (hq : n / 10 ≠ 0) :
    Nat.toDigitsCore 10 (fuel + 1) n [] =
      Nat.toDigitsCore 10 fuel (n / 10) [] ++ [Nat.digitChar (n % 10)] := by
  simp only [Nat.toDigitsCore, hq, if_false]
  exact toDigitsCore_acc fuel (n / 10) [Nat.digitChar (n % 10)]

theorem toDigitsCore_isDecDigit (fuel n : Nat) (c : Char)
    (hc : c ∈ Nat.toDigitsCore 10 fuel n []) : isDecDigit c = true := by
  induction fuel generalizing n with
  | zero => simp [Nat.toDigitsCore] at hc
  | succ fuel ih =>
    have hlast := digitChar_isDecDigit (n % 10) (Nat.mod_lt _ (by decide))
    by_cases hq : n / 10 = 0
    · simp only [Nat.toDigitsCore, hq, if_true, List.mem_singleton] at hc
      rw [hc]
      exact hlast
    · rw [toDigitsCore_step fuel n hq, List.mem_append, List.mem_singleton] at hc
      rcases hc with hc | hc
      · exact ih (n / 10) hc
      · rw [hc]
        exact hlast

theorem toDigitsCore_decVal (fuel n : Nat) (hfuel : n < fuel) :
    decVal 0 (Nat.toDigitsCore 10 fuel n []) = n := by
  induction fuel generalizing n with
  | zero => omega
  | succ fuel ih =>
    have hlast := digitChar_toNat (n % 10) (Nat.mod_lt _ (by decide))
    by_cases hq : n / 10 = 0
    · simp only [Nat.toDigitsCore, hq, if_true, decVal, List.foldl_cons, List.foldl_nil]
      rw [hlast]
      omega
    · rw [toDigitsCore_step fuel n hq, decVal_append_single, ih (n / 10) (by omega), hlast]
      omega

theorem toDigitsCore_ne_nil (fuel n : Nat) : Nat.toDigitsCore 10 (fuel + 1) n [] ≠ [] := by
  by_cases hq : n / 10 = 0
  · simp [Nat.toDigitsCore, hq]
  · rw [toDigitsCore_step fuel n hq]
    simp

theorem repr_digits (n : Nat) :
    ∃ ds : List Char, (Nat.repr n).data = ds ∧ ds ≠ [] ∧
      (∀ c ∈ ds, isDecDigit c = true) ∧ decVal 0 ds = n :=
  ⟨Nat.toDigitsCore 10 (n + 1) n [], rfl, toDigitsCore_ne_nil n n,
    fun c hc => toDigitsCore_isDecDigit (n + 1) n c hc,
    toDigitsCore_decVal (n + 1) n (by omega)⟩

theorem le_decVal (ds : List Char) (acc : Nat) : acc ≤ decVal acc ds := by
  induction ds generalizing acc with
  | nil => simp [decVal]
  | cons c cs ih =>
    have h := ih (acc * 10 + (c.toNat - 48))
    simp only [decVal, List.foldl_cons] at h ⊢
    omega

theorem parseUintLoop_digits (ds : List Char) (acc : Nat)
    (hdig : ∀ c ∈ ds, isDecDigit c = true) (hval : decVal acc ds < 18446744073709551616) :
    parseUintLoop ds acc = .ok (decVal acc ds) := by
  induction ds generalizing acc with
  | nil => simp [parseUintLoop, decVal]
  | cons c cs ih =>
    have hc : isDecDigit c = true := hdig c (List.mem_cons_self _ _)
    have hle := le_decVal cs (acc * 10 + (c.toNat - 48))
    have hval1 : decVal (acc * 10 + (c.toNat - 48)) cs < 18446744073709551616 := by
      simpa [decVal] using hval
    have hrec := ih (acc * 10 + (c.toNat - 48)) (fun x hx => hdig x (List.mem_cons_of_mem _ hx)) hval1
    have hmod : (acc * 10 + (c.toNat - 48)) % 18446744073709551616 = acc * 10 + (c.toNat - 48) :=
      Nat.mod_eq_of_lt (by omega)
    have h1 : ¬ (acc ≥ 1844674407370955162) := by omega
    have h2 : ¬ (acc * 10 + (c.toNat - 48) < acc * 10 ∨
        acc * 10 + (c.toNat - 48) > 18446744073709551615) := by omega
    simp only [parseUintLoop, hc, if_true]
    rw [if_neg h1, hmod, if_neg h2, hrec]
    simp [decVal]

theorem acceptDigits_run (ds more : List Char) (hdig : ∀ c ∈ ds, isDecDigit c = true)
    (hmore : ∀ c, more.head? = some c → isDecDigit c = false) :
    acceptDigits (ds ++ more) = (ds, more) := by
  induction ds with
  | nil =>
    cases more with
    | nil => rfl
    | cons c cs =>
      have h := hmore c rfl
      simp [acceptDigits, h]
  | cons d ds ih =>
    have hd : isDecDigit d = true := hdig d (List.mem_cons_self _ _)
    have hrec := ih (fun x hx => hdig x (List.mem_cons_of_mem _ hx))
    simp [acceptDigits, hd, hrec]

theorem inSpaceRanges_digit (k : Nat) (h1 : 48 ≤ k) (h2 : k ≤ 57) :
    inSpaceRanges k spaceRanges = false := by
  interval_cases k <;> rfl

theorem isDecDigit_not_space (c : Char) (h : isDecDigit c = true) :
    isSpace c = false ∧ isSign c = false := by
  have hb : 48 ≤ c.toNat ∧ c.toNat ≤ 57 := by
    simpa [isDecDigit] using h
  constructor
  · unfold isSpace
    rw [inSpaceRanges_digit c.toNat hb.1 hb.2]
    simp
  · unfold isSign
    have hp : c ≠ '+' := by
      intro hc
      rw [hc] at hb
      exact absurd hb (by decide)
    have hm : c ≠ '-' := by
      intro hc
      rw [hc] at hb
      exact absurd hb (by decide)
    simp [hp, hm]

theorem isSign_cases (c : Char) (h : isSign c = true) : c = '+' ∨ c = '-' := by
  simpa [isSign] using h

theorem isSign_not_space (c : Char) (h : isSign c = true) :
    isSpace c = false ∧ isDecDigit c = false := by
  rcases isSign_cases c h with hc | hc <;> (rw [hc]; exact ⟨by decide, by decide⟩)

theorem skipSpace_of_not_space (c : Char) (cs : List Char) (h : isSpace c = false) :
    skipSpace (c :: cs) = .ok (c :: cs) := by
  have hr : c ≠ '\r' := by
    intro hc
    rw [hc] at h
    exact absurd h (by decide)
  have hn : c ≠ '\n' := by
    intro hc
    rw [hc] at h
    exact absurd h (by decide)
  simp [skipSpace, hr, hn, h]

theorem scanInt32_congr (a b : List Char) (h : skipSpace a = skipSpace b) :
    scanInt32 a = scanInt32 b := by
  simp only [scanInt32]
  rw [h]

/-- Leading white space without a newline is skipped. -/
theorem skipSpace_lead (sp : List Char) (x : Char) (xs : List Char)
    (hsp : ∀ c ∈ sp, isSpace c = true ∧ c ≠ '\n') (hx : isSpace x = false) :
    skipSpace (sp ++ x :: xs) = .ok (x :: xs) := by
  induction sp with
  | nil => exact skipSpace_of_not_space x xs hx
  | cons s sp ih =>
    obtain ⟨hs, hnl⟩ := hsp s (List.mem_cons_self _ _)
    have hrec := ih (fun c hc => hsp c (List.mem_cons_of_mem _ hc))
    rw [List.cons_append, skipSpace]
    by_cases h1 : s = '\r' ∧ (sp ++ x :: xs).head? = some '\n'
    · rw [if_pos h1]
      exact hrec
    · rw [if_neg h1, if_neg hnl]
      simpa [hs] using hrec

theorem scanInt32_lead (sp : List Char) (x : Char) (xs : List Char)
    (hsp : ∀ c ∈ sp, isSpace c = true ∧ c ≠ '\n') (hx : isSpace x = false) :
    scanInt32 (sp ++ x :: xs) = scanInt32 (x :: xs) :=
  scanInt32_congr _ _ (by rw [skipSpace_lead sp x xs hsp hx, skipSpace_of_not_space x xs hx])

theorem scanInt32_digits (d : Char) (ds more : List Char)
    (hdig : ∀ c ∈ d :: ds, isDecDigit c = true)
    (hmore : ∀ c, more.head? = some c → isDecDigit c = false)
    (hval : decVal 0 (d :: ds) < 2147483648) :
    scanInt32 (d :: ds ++ more) = .ok (decVal 0 (d :: ds) : Int) := by
  have hd := hdig d (List.mem_cons_self _ _)
  obtain ⟨hsp, hsg⟩ := isDecDigit_not_space d hd
  have hskip := skipSpace_of_not_space d (ds ++ more) hsp
  have hacc : acceptDigits (d :: (ds ++ more)) = (d :: ds, more) :=
    acceptDigits_run (d :: ds) more hdig hmore
  have hparse := parseUintLoop_digits (d :: ds) 0 hdig (by omega)
  have hp : d ≠ '+' := by intro hc; rw [hc] at hsg; exact absurd hsg (by decide)
  have hm : d ≠ '-' := by intro hc; rw [hc] at hsg; exact absurd hsg (by decide)
  have hpi : parseInt (d :: ds) = .ok (decVal 0 (d :: ds) : Int) := by
    have h1 : ¬ (decVal 0 (d :: ds) ≥ 9223372036854775808) := by omega
    simp [parseInt, parseUint, hp, hm, hparse, h1]
  have hx : ((decVal 0 (d :: ds) : Int) + 2147483648) % 4294967296 - 2147483648 =
      (decVal 0 (d :: ds) : Int) := by omega
  simp only [scanInt32, List.cons_append]
  rw [hskip]
  simp only []
  rw [hskip]
  simp only [hsg, hd, Bool.false_eq_true, if_false, Bool.not_true, List.nil_append]
  rw [hacc]
  simp only []
  rw [hpi]
  simp only [hx, ne_eq, not_true_eq_false, if_false]

theorem scanInt32_neg_digits (d : Char) (ds more : List Char)
    (hdig : ∀ c ∈ d :: ds, isDecDigit c = true)
    (hmore : ∀ c, more.head? = some c → isDecDigit c = false)
    (hval : decVal 0 (d :: ds) ≤ 2147483648) :
    scanInt32 ('-' :: (d :: ds ++ more)) = .ok (-(decVal 0 (d :: ds) : Int)) := by
  have hd := hdig d (List.mem_cons_self _ _)
  have hskip := skipSpace_of_not_space '-' (d :: ds ++ more) (by decide)
  have hacc : acceptDigits (d :: (ds ++ more)) = (d :: ds, more) :=
    acceptDigits_run (d :: ds) more hdig hmore
  have hparse := parseUintLoop_digits (d :: ds) 0 hdig (by omega)
  have hpi : parseInt ('-' :: d :: ds) = .ok (-(decVal 0 (d :: ds) : Int)) := by
    have h1 : ¬ (decVal 0 (d :: ds) > 9223372036854775808) := by omega
    simp [parseInt, parseUint, hparse, h1]
  have hx : (-(decVal 0 (d :: ds) : Int) + 2147483648) % 4294967296 - 2147483648 =
      -(decVal 0 (d :: ds) : Int) := by omega
  have hsg : isSign '-' = true := by decide
  simp only [scanInt32]
  rw [hskip]
  simp only []
  rw [hskip]
  simp only [hsg, hd, if_true, List.cons_append, Bool.not_true, Bool.false_eq_true, if_false]
  rw [hacc]
  simp only [List.singleton_append, List.cons_append, List.nil_append]
  rw [hpi]
  simp only [hx, ne_eq, not_true_eq_false, if_false]

/-- The scan of the decimal form of an `int32`, after white space without a
newline and before text that does not start with a decimal digit. -/
theorem scaleReplicas_decimal (n : Int) (hn : -2147483648 ≤ n ∧ n ≤ 2147483647)
    (lead tail : String) (hlead : ∀ c ∈ lead.data, isSpace c = true ∧ c ≠ '\n')
    (htail : ∀ c, tail.data.head? = some c → isDecDigit c = false) :
    scaleReplicas (lead ++ toString n ++ tail) = n := by
  cases n with
  | ofNat m =>
    obtain ⟨ds, hds, hne, hdig, hval⟩ := repr_digits m
    cases ds with
    | nil => exact absurd rfl hne
    | cons d ds =>
      have hdata : (lead ++ toString (Int.ofNat m) ++ tail).data =
          lead.data ++ d :: (ds ++ tail.data) := by
        rw [String.data_append, String.data_append]
        have : (toString (Int.ofNat m)).data = d :: ds := hds
        rw [this]
        simp
      have hlt : decVal 0 (d :: ds) < 2147483648 := by
        rw [hval]
        have := hn.2
        simp only [Int.ofNat_eq_coe] at this
        omega
      have hd := (isDecDigit_not_space d (hdig d (List.mem_cons_self _ _))).1
      have h := scanInt32_digits d ds tail.data hdig htail hlt
      simp only [scaleReplicas, sscanfInt32]
      rw [hdata, scanInt32_lead lead.data d (ds ++ tail.data) hlead hd, ← List.cons_append, h,
        hval]
      rfl
  | negSucc m =>
    obtain ⟨ds, hds, hne, hdig, hval⟩ := repr_digits (m + 1)
    cases ds with
    | nil => exact absurd rfl hne
    | cons d ds =>
      have hdata : (lead ++ toString (Int.negSucc m) ++ tail).data =
          lead.data ++ '-' :: (d :: ds ++ tail.data) := by
        rw [String.data_append, String.data_append]
        have : (toString (Int.negSucc m)).data = '-' :: d :: ds := by
          rw [← hds]; rfl
        rw [this]
        simp
      have hle : decVal 0 (d :: ds) ≤ 2147483648 := by
        rw [hval]
        have := hn.1
        rw [Int.negSucc_eq] at this
        omega
      have h := scanInt32_neg_digits d ds tail.data hdig htail hle
      simp only [scaleReplicas, sscanfInt32]
      rw [hdata, scanInt32_lead lead.data '-' (d :: ds ++ tail.data) hlead (by decide), h, hval]
      simp only []
      rw [Int.negSucc_eq]
      omega

theorem skipSpace_spaces (sp more : List Char) (hsp : ∀ c ∈ sp, isSpace c = true)
    (hmore : ∀ c, more.head? = some c → isSpace c = false) :
    (∃ e, skipSpace (sp ++ more) = .error e) ∨ skipSpace (sp ++ more) = .ok more := by
  induction sp with
  | nil =>
    cases more with
    | nil => exact Or.inr rfl
    | cons c cs => exact Or.inr (skipSpace_of_not_space c cs (hmore c rfl))
  | cons s sp ih =>
    have hs : isSpace s = true := hsp s (List.mem_cons_self _ _)
    have hrec := ih (fun x hx => hsp x (List.mem_cons_of_mem _ hx))
    by_cases h1 : s = '\r' ∧ (sp ++ more).head? = some '\n'
    · simpa [skipSpace, h1] using hrec
    · by_cases h2 : s = '\n'
      · exact Or.inl ⟨.unexpectedNewline, by simp [skipSpace, h2]⟩
      · have hstep : skipSpace (s :: sp ++ more) = skipSpace (sp ++ more) := by
          rw [List.cons_append, skipSpace, if_neg h1, if_neg h2]
          simp [hs]
        rw [hstep]
        exact hrec

/-- White space that runs into a newline makes `SkipSpace` fail. -/
theorem skipSpace_newline (sp more : List Char) (hsp : ∀ c ∈ sp, isSpace c = true) :
    skipSpace (sp ++ '\n' :: more) = .error .unexpectedNewline := by
  induction sp with
  | nil => simp [skipSpace]
  | cons s sp ih =>
    have hs : isSpace s = true := hsp s (List.mem_cons_self _ _)
    have hrec := ih (fun x hx => hsp x (List.mem_cons_of_mem _ hx))
    rw [List.cons_append, skipSpace]
    by_cases h1 : s = '\r' ∧ (sp ++ '\n' :: more).head? = some '\n'
    · rw [if_pos h1]
      exact hrec
    · rw [if_neg h1]
      by_cases h2 : s = '\n'
      · rw [if_pos h2]
      · rw [if_neg h2]
        simpa [hs] using hrec

theorem skipSpace_newline_scan (sp more : List Char) (hsp : ∀ c ∈ sp, isSpace c = true) :
    scanInt32 (sp ++ '\n' :: more) = .error .unexpectedNewline := by
  simp only [scanInt32]
  rw [skipSpace_newline sp more hsp]

theorem scanInt32_no_number (sp more : List Char) (hsp : ∀ c ∈ sp, isSpace c = true)
    (hmore : ∀ c, more.head? = some c →
      isSpace c = false ∧ isSign c = false ∧ isDecDigit c = false) :
    ∃ e, scanInt32 (sp ++ more) = .error e := by
  have hnosp : ∀ c, more.head? = some c → isSpace c = false := fun c hc => (hmore c hc).1
  rcases skipSpace_spaces sp more hsp hnosp with ⟨e, he⟩ | hok
  · exact ⟨e, by simp [scanInt32, he]⟩
  · cases more with
    | nil =>
      refine ⟨.eof, ?_⟩
      simp only [scanInt32]
      rw [hok]
      rfl
    | cons c cs =>
      obtain ⟨hns, hsg, hdd⟩ := hmore c rfl
      refine ⟨.expectedInteger, ?_⟩
      simp only [scanInt32]
      rw [hok]
      simp only []
      rw [skipSpace_of_not_space c cs hns]
      simp [hsg, hdd]

theorem scanInt32_sign_no_number (sp : List Char) (sg : Char) (more : List Char)
    (hsp : ∀ c ∈ sp, isSpace c = true) (hsg : isSign sg = true)
    (hmore : ∀ c, more.head? = some c → isDecDigit c = false) :
    ∃ e, scanInt32 (sp ++ sg :: more) = .error e := by
  have hns : isSpace sg = false := (isSign_not_space sg hsg).1
  rcases skipSpace_spaces sp (sg :: more) hsp
      (fun c hc => by simp only [List.head?_cons, Option.some.injEq] at hc; rw [← hc]; exact hns)
    with ⟨e, he⟩ | hok
  · exact ⟨e, by simp [scanInt32, he]⟩
  · cases more with
    | nil =>
      refine ⟨.eof, ?_⟩
      simp only [scanInt32]
      rw [hok]
      simp only []
      rw [skipSpace_of_not_space sg [] hns]
      simp [hsg]
    | cons c cs =>
      have hdd := hmore c rfl
      refine ⟨.expectedInteger, ?_⟩
      simp only [scanInt32]
      rw [hok]
      simp only []
      rw [skipSpace_of_not_space sg (c :: cs) hns]
      simp [hsg, hdd]

theorem scaleReplicas_no_number (sp rest : String) (hsp : ∀ c ∈ sp.data, isSpace c = true)
    (hrest : ∀ c, rest.data.head? = some c →
      isSpace c = false ∧ isSign c = false ∧ isDecDigit c = false) :
    scaleReplicas (sp ++ rest) = 0 := by
  obtain ⟨e, he⟩ := scanInt32_no_number sp.data rest.data hsp hrest
  simp only [scaleReplicas, sscanfInt32, String.data_append]
  rw [he]

theorem scaleReplicas_sign_no_number (sp : String) (sg : Char) (rest : String)
    (hsp : ∀ c ∈ sp.data, isSpace c = true) (hsg : sg = '+' ∨ sg = '-')
    (hrest : ∀ c, rest.data.head? = some c → isDecDigit c = false) :
    scaleReplicas (sp ++ String.singleton sg ++ rest) = 0 := by
  have hsign : isSign sg = true := by
    rcases hsg with h | h <;> (rw [h]; decide)
  obtain ⟨e, he⟩ := scanInt32_sign_no_number sp.data sg rest.data hsp hsign hrest
  have hdata : (sp ++ String.singleton sg ++ rest).data = sp.data ++ sg :: rest.data := by
    rw [String.data_append, String.data_append]
    simp [String.singleton]
  simp only [scaleReplicas, sscanfInt32]
  rw [hdata, he]

theorem scaleReplicas_newline (sp rest : String) (hsp : ∀ c ∈ sp.data, isSpace c = true) :
    scaleReplicas (sp ++ "\n" ++ rest) = 0 := by
  have hdata : (sp ++ "\n" ++ rest).data = sp.data ++ '\n' :: rest.data := by
    rw [String.data_append, String.data_append]
    simp
  simp only [scaleReplicas, sscanfInt32]
  rw [hdata, skipSpace_newline_scan sp.data rest.data hsp]

theorem toString_int_chars (n : Int) (c : Char) (hc : c ∈ (toString n).data) :
    isDecDigit c = true ∨ c = '-' := by
  cases n with
  | ofNat m =>
    obtain ⟨ds, hds, _, hdig, _⟩ := repr_digits m
    have hdata : (toString (Int.ofNat m)).data = ds := hds
    rw [hdata] at hc
    exact Or.inl (hdig c hc)
  | negSucc m =>
    obtain ⟨ds, hds, _, hdig, _⟩ := repr_digits (m + 1)
    have hdata : (toString (Int.negSucc m)).data = '-' :: ds := by
      rw [← hds]; rfl
    rw [hdata] at hc
    rcases List.mem_cons.mp hc with h | h
    · exact Or.inr h
    · exact Or.inl (hdig c h)

theorem scaleRun_request (cl : Cluster) (d arg : String) (more : List String)
    (dep dep1 : Deployment)
    (hget : cl.getDeployment (more.headD "default") d = .ok dep)
    (hupd : cl.updateDeployment (more.headD "default")
      { dep with specReplicas := some (scaleReplicas arg) } = .ok dep1) :
    scaleRun cl (d :: arg :: more) =
      { stdout := ["✓ Scaled deployment " ++ d ++ " to " ++ fmtD (scaleReplicas arg) ++
          " replicas\n"],
        stderr := [],
        calls := [.getDeployment (more.headD "default") d,
          .updateDeployment (more.headD "default")
            { dep with specReplicas := some (scaleReplicas arg) }],
        panicked := false } := by
  have hns : (if (d :: arg :: more).length > 2 then (d :: arg :: more).getD 2 "" else "default") =
      more.headD "default" := by
    cases more <;> simp
  simp only [scaleRun, goIndex]
  rw [hns]
  simp only [List.length_cons, Int.toNat_zero, List.get?_cons_zero]
  have h0 : (0 : Int) ≤ 0 ∧ (0 : Int) < ((more.length + 1 + 1 : Nat) : Int) := by omega
  have h1 : (0 : Int) ≤ 1 ∧ (1 : Int) < ((more.length + 1 + 1 : Nat) : Int) := by omega
  rw [if_pos h0, if_pos h1]
  simp only [show (1 : Int).toNat = 1 from rfl, List.get?_cons_succ, List.get?_cons_zero]
  rw [hget]
  simp only []
  rw [hupd]
  rfl

/-- C6 fails as stated: "12abc" is not the decimal form of an integer, yet the
replica count scanned from it is 12, not 0. -/
theorem C6_numeric_lead_is_scanned :
    ¬ (∀ arg : String, (∀ n : Int, arg ≠ toString n) → scaleReplicas arg = 0) := by
  intro h
  have hne : ∀ n : Int, "12abc" ≠ toString n := by
    intro n hn
    have hmem : 'a' ∈ (toString n).data := by
      rw [← hn]
      decide
    rcases toString_int_chars n 'a' hmem with h1 | h1
    · exact absurd h1 (by decide)
    · exact absurd h1 (by decide)
  exact absurd (h "12abc" hne) (by decide)

/-- C6 (amended): the scan skips leading white space, reads an optional sign
and the decimal digits that follow, and ignores the rest of the argument.  The
decimal form of an integer n in the int32 range, alone, or after white space
without a newline and before text that does not start with a decimal digit,
gives replica count n (so "12abc" gives 12 and "1_0" gives 1).  An argument in
which the leading white space is followed by a newline, by nothing, by a
character that is neither a sign nor a decimal digit, or by a sign with no
decimal digit after it (such as "abc", "-abc", "-" or the empty string) gives
replica count 0.  The scan error is dropped: with the cluster calls
succeeding, the update request carries that count, nothing goes to the error
stream, and the confirmation line is printed. -/
theorem C6_replica_parsing (n : Int) (hn : -2147483648 ≤ n ∧ n ≤ 2147483647)
    (lead tail : String) (hlead : ∀ c ∈ lead.data, isSpace c = true ∧ c ≠ '\n')
    (htail : ∀ c, tail.data.head? = some c → isDecDigit c = false)
    (sp rest : String) (hsp : ∀ c ∈ sp.data, isSpace c = true)
    (hrest : ∀ c, rest.data.head? = some c →
      isSpace c = false ∧ isSign c = false ∧ isDecDigit c = false)
    (sg : Char) (hsg : sg = '+' ∨ sg = '-') (after : String)
    (hafter : ∀ c, after.data.head? = some c → isDecDigit c = false)
    (anything : String)
    (cl : Cluster) (d arg : String) (more : List String) (dep dep1 : Deployment)
    (hget : cl.getDeployment (more.headD "default") d = .ok dep)
    (hupd : cl.updateDeployment (more.headD "default")
      { dep with specReplicas := some (scaleReplicas arg) } = .ok dep1) :
    scaleReplicas (toString n) = n ∧
    scaleReplicas (lead ++ toString n ++ tail) = n ∧
    scaleReplicas "12abc" = 12 ∧
    scaleReplicas "1_0" = 1 ∧
    scaleReplicas (sp ++ rest) = 0 ∧
    scaleReplicas (sp ++ String.singleton sg ++ after) = 0 ∧
    scaleReplicas (sp ++ "\n" ++ anything) = 0 ∧
    scaleReplicas "abc" = 0 ∧
    scaleReplicas "-abc" = 0 ∧
    scaleReplicas "-" = 0 ∧
    scaleReplicas "" = 0 ∧
    updateReplicas (scaleRun cl (d :: arg :: more)) = some (scaleReplicas arg) ∧
    (scaleRun cl (d :: arg :: more)).stderr = [] ∧
    (scaleRun cl (d :: arg :: more)).stdout =
      ["✓ Scaled deployment " ++ d ++ " to " ++ fmtD (scaleReplicas arg) ++ " replicas\n"] := by
  have hplain : scaleReplicas (toString n) = n := by
    have h := scaleReplicas_decimal n hn "" ""
      (by intro c hc; exact absurd hc (by simp)) (by intro c hc; exact absurd hc (by simp))
    have he : "" ++ toString n ++ "" = toString n := by
      apply String.ext
      simp
    rw [he] at h
    exact h
  have hrun := scaleRun_request cl d arg more dep dep1 hget hupd
  refine ⟨hplain, scaleReplicas_decimal n hn lead tail hlead htail, by decide, by decide,
    scaleReplicas_no_number sp rest hsp hrest,
    scaleReplicas_sign_no_number sp sg after hsp hsg hafter,
    scaleReplicas_newline sp anything hsp, by decide, by decide, by decide, by decide,
    ?_, ?_, ?_⟩
  · rw [hrun]
    simp [updateReplicas, List.findSome?]
  · rw [hrun]
  · rw [hrun]

/-- Witness of C6 (amended): `scale web abc` with every cluster call
succeeding, next to the arguments "3", " 3 replicas", " -x" and a newline
before "5". -/
theorem C6_replica_parsing_witness :
    scaleReplicas (toString (3 : Int)) = 3 ∧
    scaleReplicas (" " ++ toString (3 : Int) ++ " replicas") = 3 ∧
    scaleReplicas (" " ++ "abc") = 0 ∧
    scaleReplicas (" " ++ String.singleton '-' ++ "x") = 0 ∧
    scaleReplicas (" " ++ "\n" ++ "5") = 0 ∧
    updateReplicas (scaleRun (sampleCluster []) ["web", "abc"]) = some (scaleReplicas "abc") ∧
    (scaleRun (sampleCluster []) ["web", "abc"]).stderr = [] :=
  have h := C6_replica_parsing 3 (by decide) " " " replicas"
    (by decide)
    (by intro c hc; cases hc; decide) " " "abc"
    (by decide)
    (by intro c hc; cases hc; decide)
    '-' (Or.inr rfl) "x"
    (by intro c hc; cases hc; decide)
    "5"
    (sampleCluster []) "web" "abc" [] sampleDeployment
    { sampleDeployment with specReplicas := some (scaleReplicas "abc") } rfl rfl
  ⟨h.1, h.2.1, h.2.2.2.2.1, h.2.2.2.2.2.1, h.2.2.2.2.2.2.1,
    h.2.2.2.2.2.2.2.2.2.2.2.1, h.2.2.2.2.2.2.2.2.2.2.2.2.1⟩

end K8sManager
